import Mathlib

/-!
# Verification of the LAD detection-evaluation engine

Shallow embedding of the evaluation core found in `src/old/test.py` and
`src/old/test2.py` (the two files share the same IoU, matcher and metric
formulas; `test2.py` additionally computes an interpolated mAP).  Numeric
values that the Python code holds in IEEE doubles are modelled as exact
rationals; optional results model Python exceptions (`none` = the call
raises).  Timing, plotting and system monitoring are I/O glue outside
the metric pipeline and are not modelled.
-/

set_option autoImplicit false

namespace LAD

/-! ## Definitions -/

/-- The epsilon constant `1e-6` used throughout the metric formulas. -/
def eps : ℚ := 1 / 1000000

/-- An axis-aligned bounding box `[x_min, y_min, x_max, y_max]`, the
four-element array used by both scripts. -/
structure Box where
  x1 : ℚ
  y1 : ℚ
  x2 : ℚ
  y2 : ℚ
deriving DecidableEq, Repr

/-- `(box[2] - box[0]) * (box[3] - box[1])`, the area term of
`calculate_iou`. -/
def Box.area (b : Box) : ℚ := (b.x2 - b.x1) * (b.y2 - b.y1)

/-- The clipped intersection area computed inside `calculate_iou`:
`max(0, x2 - x1) * max(0, y2 - y1)` over the intersection rectangle. -/
def interArea (a b : Box) : ℚ :=
  (max 0 (min a.x2 b.x2 - max a.x1 b.x1)) * (max 0 (min a.y2 b.y2 - max a.y1 b.y1))

/-- `calculate_iou` from `src/old/test.py:59` / `src/old/test2.py:119`:
`inter_area / (box1_area + box2_area - inter_area + 1e-6)`. -/
def calculate_iou (a b : Box) : ℚ :=
  interArea a b / (Box.area a + Box.area b - interArea a b + eps)

/-- A box is well-formed when its min corner is at most its max corner. -/
def validBox (b : Box) : Prop := b.x1 ≤ b.x2 ∧ b.y1 ≤ b.y2

/-- A detector prediction: a box together with its confidence score. -/
structure Pred where
  box : Box
  conf : ℚ
deriving DecidableEq, Repr

/-- The inner `for i, gt_box in enumerate(gt_boxes)` loop of the matcher:
starting from `(best_iou, best_gt_idx) = (0, -1)`, update whenever
`iou > best_iou` (strict).  `i` is the index of the first box of the
remaining list. -/
def bestMatchAux (p : Box) : List Box → ℕ → ℚ × ℤ → ℚ × ℤ
  | [], _, best => best
  | g :: gs, i, best =>
      bestMatchAux p gs (i + 1)
        (if best.1 < calculate_iou p g then (calculate_iou p g, (i : ℤ)) else best)

/-- The best-IoU search of the matcher over all ground-truth boxes. -/
def bestMatch (p : Box) (gts : List Box) : ℚ × ℤ := bestMatchAux p gts 0 (0, -1)

/-- Python sequence-index normalization: a negative index counts from the
end; an index outside `[-n, n)` is an `IndexError` (`none`). -/
def pyIdx (n : ℕ) (i : ℤ) : Option ℕ :=
  if 0 ≤ i then (if i < (n : ℤ) then some i.toNat else none)
  else (if 0 ≤ (n : ℤ) + i then some ((n : ℤ) + i).toNat else none)

/-- Per-sample matcher state: the `gt_matched` flag array and the
`matches` / `confidences` entries appended so far for this sample. -/
structure SampleState where
  matched : List Bool
  recs : List Bool
  confs : List ℚ
deriving DecidableEq, Repr

/-- One iteration of the matcher loop body for a surviving prediction:
find the best ground-truth match; if `best_iou >= iou_threshold` and the
box at `best_gt_idx` (Python indexing, so `-1` reads the last flag and
raises on an empty array) is unclaimed, emit a true positive and claim
it, otherwise emit a false positive.  The confidence is appended either
way.  `none` models the `IndexError` raised by `gt_matched[best_gt_idx]`;
the short-circuit of Python's `and` is preserved: the flag array is only
indexed after `best_iou >= iou_threshold` has succeeded. -/
def matchStep (gts : List Box) (iouThr : ℚ) (st : SampleState) (p : Pred) :
    Option SampleState :=
  let b := bestMatch p.box gts
  if iouThr ≤ b.1 then
    match pyIdx st.matched.length b.2 with
    | none => none
    | some j =>
      match st.matched.get? j with
      | none => none
      | some claimed =>
        if claimed then
          some ⟨st.matched, st.recs ++ [false], st.confs ++ [p.conf]⟩
        else
          some ⟨st.matched.set j true, st.recs ++ [true], st.confs ++ [p.conf]⟩
  else
    some ⟨st.matched, st.recs ++ [false], st.confs ++ [p.conf]⟩

/-- The matcher loop over the surviving predictions of one sample. -/
def matchLoop (gts : List Box) (iouThr : ℚ) :
    SampleState → List Pred → Option SampleState
  | st, [] => some st
  | st, p :: ps =>
    match matchStep gts iouThr st p with
    | none => none
    | some st' => matchLoop gts iouThr st' ps

/-- Matching one sample: `gt_matched = np.zeros(len(gt_boxes))`, then the
loop over the (already confidence-filtered) predictions.  The code adds
`np.sum(~gt_matched)`, i.e. `(·.matched.count false)`, to the global
false-negative count afterwards. -/
def matchSample (gts : List Box) (iouThr : ℚ) (preds : List Pred) :
    Option SampleState :=
  matchLoop gts iouThr ⟨List.replicate gts.length false, [], []⟩ preds

/-! ## Precision-recall curve and interpolated mAP (`test2.py:132-144`)

`calculate_map` delegates the curve to the scikit-learn dependency
`sklearn.metrics.precision_recall_curve`, whose source is not part of
this repository; `prPoints` / `precision_recall_curve` below embed that
routine's semantics: cumulative true/false-positive counts at each
distinct confidence threshold in descending order, precision `tp/(tp+fp)`,
recall `tp/total` (all ones when there is no positive label), points
beyond the first full-recall point dropped, the order reversed and a
final `(precision, recall) = (1, 0)` point appended. -/

/-- The distinct confidence values in descending order (the thresholds of
the scikit-learn curve). -/
def descThresholds (cs : List ℚ) : List ℚ :=
  (cs.insertionSort (fun a b => b ≤ a)).dedup

/-- The raw curve points `(precision, recall)` per distinct threshold,
highest threshold first. -/
def prPoints (ms : List Bool) (cs : List ℚ) : List (ℚ × ℚ) :=
  let rs := ms.zip cs
  let total := rs.countP (fun r => r.1)
  (descThresholds cs).map fun c =>
    let tp := rs.countP (fun r => r.1 && decide (c ≤ r.2))
    let fp := rs.countP (fun r => !r.1 && decide (c ≤ r.2))
    ((tp : ℚ) / ((tp : ℚ) + (fp : ℚ)),
      if total = 0 then 1 else (tp : ℚ) / (total : ℚ))

/-- The curve returned by the scikit-learn routine: cut after the first
point of full recall, reverse so recall decreases, and append the
terminal point `(precision, recall) = (1, 0)`. -/
def precision_recall_curve (ms : List Bool) (cs : List ℚ) : List (ℚ × ℚ) :=
  let pts := prPoints ms cs
  (pts.takeWhile (fun q => decide (q.2 ≠ 1))
      ++ (pts.dropWhile (fun q => decide (q.2 ≠ 1))).take 1).reverse
    ++ [(1, 0)]

/-- The 11 recall thresholds `np.linspace(0, 1, 11)`. -/
def recallThresholds : List ℚ := (List.range 11).map (fun i => (i : ℚ) / 10)

/-- `calculate_map` from `src/old/test2.py:132`: early return `0.0` on an
empty input, otherwise for each recall threshold `t` add
`np.max(precision[recall >= t])` when the mask is non-empty, and divide
by the number of thresholds. -/
def calculate_map (ms : List Bool) (cs : List ℚ) : ℚ :=
  if ms.length = 0 ∨ cs.length = 0 then 0
  else
    let curve := precision_recall_curve ms cs
    (recallThresholds.foldl (fun acc t =>
      match (curve.filter (fun q => decide (t ≤ q.2))).map Prod.fst with
      | [] => acc
      | x :: xs => acc + xs.foldl max x) 0) / 11

/-- Spec-side reading of the 11-point interpolation: the maximum precision
among curve points of recall at least `t`, `0` when no point qualifies. -/
def maxPrecAtRecall (curve : List (ℚ × ℚ)) (t : ℚ) : ℚ :=
  ((curve.filter (fun q => decide (t ≤ q.2))).map Prod.fst).foldr max 0

/-- Spec-side reading of mAP: the mean of the 11 interpolated maxima. -/
def interpolatedMap (curve : List (ℚ × ℚ)) : ℚ :=
  ((recallThresholds.map (maxPrecAtRecall curve)).sum) / 11

/-! ## Evaluation driver (`evaluate_model`) -/

/-- Global accumulator of `evaluate_model`: running counts plus the global
`matches` and `confidences` lists. -/
structure RunState where
  tp : ℕ
  fp : ℕ
  fn : ℕ
  matchList : List Bool
  confidences : List ℚ
deriving DecidableEq, Repr

/-- One sample is a pair of the detector's raw predictions and the
ground-truth boxes (`data['boxes']`). -/
def Sample : Type := List Pred × List Box

/-- The confidence filter of `evaluate_model`: keep `conf >= conf_threshold`. -/
def survivors (confThr : ℚ) (preds : List Pred) : List Pred :=
  preds.filter (fun p => decide (confThr ≤ p.conf))

/-- The per-sample body of the `evaluate_model` loop: filter predictions
by confidence, run the matcher, then bump `tp` by the true records, `fp`
by the false records, `fn` by `np.sum(~gt_matched)` and extend the global
`matches` / `confidences` lists. -/
def evalSampleAcc (iouThr confThr : ℚ) (g : RunState) (s : Sample) :
    Option RunState :=
  match matchSample s.2 iouThr (survivors confThr s.1) with
  | none => none
  | some st =>
      some ⟨g.tp + st.recs.count true, g.fp + st.recs.count false,
            g.fn + st.matched.count false,
            g.matchList ++ st.recs, g.confidences ++ st.confs⟩

/-- The dataset loop of `evaluate_model`. -/
def evalLoop (iouThr confThr : ℚ) : RunState → List Sample → Option RunState
  | g, [] => some g
  | g, s :: ss =>
    match evalSampleAcc iouThr confThr g s with
    | none => none
    | some g' => evalLoop iouThr confThr g' ss

/-- The final result bundle of `evaluate_model` (the `test2.py` variant;
`test.py` is identical minus the mAP field; `fps` and the system-monitor
payload are timing I/O outside the metric pipeline). -/
structure EvalResult where
  precision : ℚ
  recallScore : ℚ
  f1 : ℚ
  mapScore : ℚ
  tp : ℕ
  fp : ℕ
  fn : ℕ
  matchList : List Bool
  confidences : List ℚ
deriving DecidableEq, Repr

/-- `evaluate_model` from `src/old/test.py:73` / `src/old/test2.py:146`:
run the matcher over every sample, then derive precision, recall, F1 and
mAP from the accumulated state. -/
def evaluate_model (samples : List Sample) (iouThr confThr : ℚ) :
    Option EvalResult :=
  match evalLoop iouThr confThr ⟨0, 0, 0, [], []⟩ samples with
  | none => none
  | some g =>
      let p : ℚ := (g.tp : ℚ) / ((g.tp : ℚ) + (g.fp : ℚ) + eps)
      let r : ℚ := (g.tp : ℚ) / ((g.tp : ℚ) + (g.fn : ℚ) + eps)
      let f : ℚ := 2 * (p * r) / (p + r + eps)
      some ⟨p, r, f, calculate_map g.matchList g.confidences,
            g.tp, g.fp, g.fn, g.matchList, g.confidences⟩

/-! ## KITTI label parsing (`parse_kitti_label`, `test.py:22` / `test2.py:86`)

Lines are modelled as character lists; `pyStrip`, `splitOnSpace` and
`pyFloat` embed `str.strip()`, `str.split(' ')` and `float()` (on plain
decimal literals; any other argument raises, `none`). -/

/-- The whitespace characters stripped by Python's `str.strip()`. -/
def isPySpace (c : Char) : Bool :=
  c = ' ' || c = '\t' || c = '\n' || c = '\x0d' || c = '\x0b' || c = '\x0c'

/-- `str.strip()`: drop leading and trailing whitespace. -/
def pyStrip (s : List Char) : List Char :=
  ((s.dropWhile isPySpace).reverse.dropWhile isPySpace).reverse

/-- `str.split(sep)` for a character predicate: split at every separator
occurrence, keeping empty parts (so `'a  b'.split(' ')` has three parts). -/
def splitOnPred (sep : Char → Bool) : List Char → List (List Char)
  | [] => [[]]
  | c :: rest =>
    let r := splitOnPred sep rest
    if sep c then [] :: r
    else
      match r with
      | [] => [[c]]
      | f :: fs => (c :: f) :: fs

/-- `str.split(' ')`, the tokenizer used by `parse_kitti_label`. -/
def splitOnSpace (s : List Char) : List (List Char) := splitOnPred (fun c => c = ' ') s

/-- The number of whitespace-separated fields of a line (maximal runs of
non-whitespace characters). -/
def wsFieldCount (s : List Char) : ℕ :=
  ((splitOnPred isPySpace (pyStrip s)).filter (fun f => !f.isEmpty)).length

/-- Digit run to a natural number. -/
def natOfDigits (ds : List Char) : ℕ :=
  ds.foldl (fun acc c => 10 * acc + (c.toNat - '0'.toNat)) 0

/-- All characters are decimal digits. -/
def allDigits (ds : List Char) : Bool := ds.all (fun c => c.isDigit)

/-- Python `float()` on a plain decimal literal `[+-]?digits[.digits]`
(at least one digit overall); any other argument raises `ValueError`
(`none`). -/
def pyFloat (s : List Char) : Option ℚ :=
  let t := pyStrip s
  let core : List Char → Option ℚ := fun u =>
    match splitOnPred (fun c => c = '.') u with
    | [ip] =>
        if allDigits ip ∧ ip ≠ [] then some ((natOfDigits ip : ℚ)) else none
    | [ip, fp] =>
        if allDigits ip ∧ allDigits fp ∧ (ip ≠ [] ∨ fp ≠ []) then
          some ((natOfDigits ip : ℚ) + (natOfDigits fp : ℚ) / ((10 : ℚ) ^ fp.length))
        else none
    | _ => none
  match t with
  | '-' :: u => (core u).map (fun q => -q)
  | '+' :: u => core u
  | u => core u

/-- `parse_kitti_label`: for each line, split on single spaces after
stripping; skip the line when it has fewer than 15 parts; otherwise the
object class is part 0 and the box is `float(parts[4..7])`.  A failing
`float()` raises and aborts the whole parse (`none`). -/
def parse_kitti_label : List (List Char) → Option (List Box × List (List Char))
  | [] => some ([], [])
  | line :: rest =>
    let parts := splitOnSpace (pyStrip line)
    if parts.length < 15 then parse_kitti_label rest
    else
      match pyFloat (parts.getD 4 []), pyFloat (parts.getD 5 []),
            pyFloat (parts.getD 6 []), pyFloat (parts.getD 7 []) with
      | some x1, some y1, some x2, some y2 =>
          match parse_kitti_label rest with
          | none => none
          | some (bs, cls) => some (⟨x1, y1, x2, y2⟩ :: bs, parts.getD 0 [] :: cls)
      | _, _, _, _ => none

/-! ## Helper lemmas -/

lemma interArea_nonneg (a b : Box) : 0 ≤ interArea a b :=
  mul_nonneg (le_max_left 0 _) (le_max_left 0 _)

lemma area_nonneg_of_valid {b : Box} (h : validBox b) : 0 ≤ Box.area b :=
  mul_nonneg (by linarith [h.1]) (by linarith [h.2])

lemma interArea_le_area_left (a b : Box) (ha : validBox a) :
    interArea a b ≤ Box.area a := by
  have hx : max 0 (min a.x2 b.x2 - max a.x1 b.x1) ≤ a.x2 - a.x1 := by
    apply max_le
    · linarith [ha.1]
    · have h1 : min a.x2 b.x2 ≤ a.x2 := min_le_left _ _
      have h2 : a.x1 ≤ max a.x1 b.x1 := le_max_left _ _
      linarith
  have hy : max 0 (min a.y2 b.y2 - max a.y1 b.y1) ≤ a.y2 - a.y1 := by
    apply max_le
    · linarith [ha.2]
    · have h1 : min a.y2 b.y2 ≤ a.y2 := min_le_left _ _
      have h2 : a.y1 ≤ max a.y1 b.y1 := le_max_left _ _
      linarith
  exact mul_le_mul hx hy (le_max_left 0 _) (by linarith [ha.1])

lemma interArea_le_area_right (a b : Box) (hb : validBox b) :
    interArea a b ≤ Box.area b := by
  have hx : max 0 (min a.x2 b.x2 - max a.x1 b.x1) ≤ b.x2 - b.x1 := by
    apply max_le
    · linarith [hb.1]
    · have h1 : min a.x2 b.x2 ≤ b.x2 := min_le_right _ _
      have h2 : b.x1 ≤ max a.x1 b.x1 := le_max_right _ _
      linarith
  have hy : max 0 (min a.y2 b.y2 - max a.y1 b.y1) ≤ b.y2 - b.y1 := by
    apply max_le
    · linarith [hb.2]
    · have h1 : min a.y2 b.y2 ≤ b.y2 := min_le_right _ _
      have h2 : b.y1 ≤ max a.y1 b.y1 := le_max_right _ _
      linarith
  exact mul_le_mul hx hy (le_max_left 0 _) (by linarith [hb.1])

lemma iou_denom_pos {a b : Box} (ha : validBox a) (hb : validBox b) :
    0 < Box.area a + Box.area b - interArea a b + eps := by
  have h1 := interArea_le_area_left a b ha
  have h2 := area_nonneg_of_valid hb
  have : (0 : ℚ) < eps := by norm_num [eps]
  linarith

lemma count_false_add_count_true (l : List Bool) :
    l.count false + l.count true = l.length := by
  induction l with
  | nil => rfl
  | cons b t ih => cases b <;> simp [List.count_cons] <;> omega

lemma count_true_set : ∀ (l : List Bool) (j : ℕ), l.get? j = some false →
    (l.set j true).count true = l.count true + 1
  | [], j, h => by simp at h
  | b :: t, 0, h => by
      simp only [List.get?_eq_getElem?, List.getElem?_cons_zero, Option.some.injEq] at h
      subst h
      simp [List.count_cons]
  | b :: t, j + 1, h => by
      simp only [List.get?_eq_getElem?, List.getElem?_cons_succ] at h
      have ih := count_true_set t j (by simpa using h)
      cases b <;> simp [List.count_cons, ih]

lemma matchStep_some {gts : List Box} {iouThr : ℚ} {st st' : SampleState} {p : Pred}
    (h : matchStep gts iouThr st p = some st') :
    ∃ b : Bool, st'.recs = st.recs ++ [b] ∧ st'.confs = st.confs ++ [p.conf]
      ∧ st'.matched.length = st.matched.length
      ∧ st'.matched.count true = st.matched.count true + (if b then 1 else 0) := by
  simp only [matchStep] at h
  split at h
  · split at h
    · exact absurd h (by simp)
    · rename_i j hj
      split at h
      · exact absurd h (by simp)
      · rename_i claimed hc
        split at h
        · cases h
          exact ⟨false, rfl, rfl, rfl, by simp⟩
        · cases h
          rename_i hclaimed
          have hcf : claimed = false := by
            cases claimed
            · rfl
            · exact absurd rfl hclaimed
          subst hcf
          exact ⟨true, rfl, rfl, by simp, by simp [count_true_set st.matched j hc]⟩
  · cases h
    exact ⟨false, rfl, rfl, rfl, by simp⟩

lemma matchLoop_some_inv (gts : List Box) (iouThr : ℚ) :
    ∀ (preds : List Pred) (st0 st : SampleState),
      matchLoop gts iouThr st0 preds = some st →
      st.matched.length = st0.matched.length
      ∧ st.matched.count true + st0.recs.count true
          = st0.matched.count true + st.recs.count true
      ∧ st.recs.length = st0.recs.length + preds.length
      ∧ st.confs = st0.confs ++ preds.map Pred.conf := by
  intro preds
  induction preds with
  | nil =>
    intro st0 st h
    simp only [matchLoop, Option.some.injEq] at h
    subst h
    simp
  | cons p ps ih =>
    intro st0 st h
    simp only [matchLoop] at h
    split at h
    · exact absurd h (by simp)
    · rename_i st1 hstep
      obtain ⟨b, hr, hc, hl, hct⟩ := matchStep_some hstep
      obtain ⟨ihl, ihct, ihlen, ihconfs⟩ := ih st1 st h
      refine ⟨by rw [ihl, hl], ?_, ?_, ?_⟩
      · have h1 : st1.recs.count true = st0.recs.count true + (if b then 1 else 0) := by
          rw [hr]
          cases b <;> simp
        cases b <;> simp at hct h1 <;> omega
      · have h1 : st1.recs.length = st0.recs.length + 1 := by rw [hr]; simp
        simp only [List.length_cons]
        omega
      · rw [ihconfs, hc]
        simp

lemma matchSample_inv {gts : List Box} {iouThr : ℚ} {preds : List Pred}
    {st : SampleState} (h : matchSample gts iouThr preds = some st) :
    st.matched.length = gts.length
    ∧ st.matched.count true = st.recs.count true
    ∧ st.recs.length = preds.length
    ∧ st.confs = preds.map Pred.conf := by
  obtain ⟨hl, hct, hlen, hconfs⟩ := matchLoop_some_inv gts iouThr preds _ st h
  simp only [List.length_replicate] at hl
  simp only [List.count_replicate] at hct
  refine ⟨hl, ?_, by simpa using hlen, by simpa using hconfs⟩
  simpa using hct

lemma bestMatchAux_snd_lt (p : Box) :
    ∀ (gts : List Box) (i : ℕ) (best : ℚ × ℤ), best.2 < (i : ℤ) →
      (bestMatchAux p gts i best).2 < (i : ℤ) + gts.length := by
  intro gts
  induction gts with
  | nil =>
    intro i best h
    simpa [bestMatchAux] using h
  | cons g gs ih =>
    intro i best h
    simp only [bestMatchAux]
    have hcond : ((if best.1 < calculate_iou p g then (calculate_iou p g, (i : ℤ))
        else best) : ℚ × ℤ).2 < ((i + 1 : ℕ) : ℤ) := by
      split
      · push_cast
        omega
      · push_cast
        omega
    have := ih (i + 1) _ hcond
    simp only [List.length_cons] at this ⊢
    push_cast at this ⊢
    omega

lemma bestMatch_snd_lt (p : Box) (gts : List Box) :
    (bestMatch p gts).2 < (gts.length : ℤ) := by
  have := bestMatchAux_snd_lt p gts 0 (0, -1) (by norm_num)
  simpa [bestMatch] using this

lemma bestMatchAux_all_zero (p : Box) :
    ∀ (gts : List Box) (i : ℕ), (∀ g ∈ gts, calculate_iou p g = 0) →
      bestMatchAux p gts i (0, -1) = (0, -1) := by
  intro gts
  induction gts with
  | nil => intro i _; rfl
  | cons g gs ih =>
    intro i hz
    simp only [bestMatchAux]
    have hg : calculate_iou p g = 0 := hz g (by simp)
    rw [hg]
    simp only [lt_self_iff_false, if_false]
    exact ih (i + 1) (fun g' hg' => hz g' (by simp [hg']))

lemma bestMatch_all_zero (p : Box) (gts : List Box)
    (hz : ∀ g ∈ gts, calculate_iou p g = 0) : bestMatch p gts = (0, -1) :=
  bestMatchAux_all_zero p gts 0 hz

lemma matchStep_tp {gts : List Box} {iouThr iou1 : ℚ} {k : ℤ} {p : Pred}
    {st : SampleState} (h1 : bestMatch p.box gts = (iou1, k)) (ht : iouThr ≤ iou1)
    (hk : 0 ≤ k) (hklt : k < (gts.length : ℤ))
    (hlen : st.matched.length = gts.length)
    (hget : st.matched.get? k.toNat = some false) :
    matchStep gts iouThr st p
      = some ⟨st.matched.set k.toNat true, st.recs ++ [true], st.confs ++ [p.conf]⟩ := by
  have hpy : pyIdx st.matched.length k = some k.toNat := by
    unfold pyIdx
    rw [if_pos hk, if_pos (by omega : k < (st.matched.length : ℤ))]
  have hget' : st.matched[k.toNat]? = some false := by simpa using hget
  simp only [matchStep]
  rw [h1]
  simp [ht, hpy, hget']

lemma matchStep_fp_claimed {gts : List Box} {iouThr iou1 : ℚ} {k : ℤ} {p : Pred}
    {st : SampleState} (h1 : bestMatch p.box gts = (iou1, k)) (ht : iouThr ≤ iou1)
    (hk : 0 ≤ k) (hklt : k < (gts.length : ℤ))
    (hlen : st.matched.length = gts.length)
    (hget : st.matched.get? k.toNat = some true) :
    matchStep gts iouThr st p
      = some ⟨st.matched, st.recs ++ [false], st.confs ++ [p.conf]⟩ := by
  have hpy : pyIdx st.matched.length k = some k.toNat := by
    unfold pyIdx
    rw [if_pos hk, if_pos (by omega : k < (st.matched.length : ℤ))]
  have hget' : st.matched[k.toNat]? = some true := by simpa using hget
  simp only [matchStep]
  rw [h1]
  simp [ht, hpy, hget']

lemma matchLoop_empty_gts (iouThr : ℚ) (h : 0 < iouThr) :
    ∀ (preds : List Pred) (recs : List Bool) (confs : List ℚ),
      matchLoop [] iouThr ⟨[], recs, confs⟩ preds
        = some ⟨[], recs ++ List.replicate preds.length false,
                confs ++ preds.map Pred.conf⟩ := by
  intro preds
  induction preds with
  | nil =>
    intro recs confs
    simp [matchLoop]
  | cons p ps ih =>
    intro recs confs
    have hstep : matchStep [] iouThr ⟨[], recs, confs⟩ p
        = some ⟨[], recs ++ [false], confs ++ [p.conf]⟩ := by
      simp only [matchStep]
      rw [show bestMatch p.box [] = (0, -1) from rfl]
      simp only
      rw [if_neg (by linarith)]
    simp only [matchLoop, hstep]
    rw [ih]
    simp [List.replicate_succ, List.append_assoc]

lemma replicate_set_last : ∀ (n : ℕ), 1 ≤ n →
    (List.replicate n false).set (n - 1) true
      = List.replicate (n - 1) false ++ [true] := by
  intro n
  induction n with
  | zero => omega
  | succ m ih =>
    intro _
    cases Nat.eq_zero_or_pos m with
    | inl h0 => subst h0; simp
    | inr hpos =>
      have hm : m - 1 + 1 = m := by omega
      simp only [Nat.add_sub_cancel]
      rw [List.replicate_succ, ← hm, List.set_cons_succ]
      rw [hm]
      have := ih hpos
      rw [← hm] at this ⊢
      rw [this]
      simp [List.replicate_succ]

lemma foldr_max_nonneg (l : List ℚ) : 0 ≤ l.foldr max 0 := by
  induction l with
  | nil => simp
  | cons x xs ih => exact le_trans ih (le_max_right x _)

lemma le_foldr_max {x : ℚ} : ∀ {l : List ℚ}, x ∈ l → x ≤ l.foldr max 0 := by
  intro l
  induction l with
  | nil => intro h; simp at h
  | cons y ys ih =>
    intro h
    rcases List.mem_cons.mp h with h | h
    · subst h
      exact le_max_left x _
    · exact le_trans (ih h) (le_max_right y _)

lemma foldl_max_eq_foldr {x : ℚ} {xs : List ℚ} (hx : 0 ≤ x)
    (hxs : ∀ y ∈ xs, 0 ≤ y) : xs.foldl max x = max x (xs.foldr max 0) := by
  induction xs generalizing x with
  | nil =>
    simp [max_eq_left hx]
  | cons y ys ih =>
    have hy : 0 ≤ y := hxs y (by simp)
    have hys : ∀ z ∈ ys, 0 ≤ z := fun z hz => hxs z (by simp [hz])
    simp only [List.foldl_cons, List.foldr_cons]
    rw [ih (le_trans hx (le_max_left x y)) hys, max_assoc]

lemma prec_mem_curve_nonneg {ms : List Bool} {cs : List ℚ} {q : ℚ × ℚ}
    (hq : q ∈ precision_recall_curve ms cs) : 0 ≤ q.1 := by
  simp only [precision_recall_curve] at hq
  rcases List.mem_append.mp hq with h | h
  · have hpts : q ∈ prPoints ms cs := by
      have h' := List.mem_reverse.mp h
      rcases List.mem_append.mp h' with h2 | h2
      · exact (List.takeWhile_sublist _).subset h2
      · exact (List.dropWhile_sublist _).subset ((List.take_sublist _ _).subset h2)
    simp only [prPoints, List.mem_map] at hpts
    obtain ⟨c, -, hc⟩ := hpts
    rw [← hc]
    exact div_nonneg (by positivity) (by positivity)
  · simp only [List.mem_singleton] at h
    subst h
    norm_num

lemma foldl_interp (curve : List (ℚ × ℚ)) (hc : ∀ q ∈ curve, 0 ≤ q.1) :
    ∀ (l : List ℚ) (a : ℚ),
      l.foldl (fun acc t =>
        match (curve.filter (fun q => decide (t ≤ q.2))).map Prod.fst with
        | [] => acc
        | x :: xs => acc + xs.foldl max x) a
      = a + (l.map (maxPrecAtRecall curve)).sum := by
  intro l
  induction l with
  | nil => intro a; simp
  | cons t ts ih =>
    intro a
    simp only [List.foldl_cons, List.map_cons, List.sum_cons]
    rw [ih]
    have hstep : (match (curve.filter (fun q => decide (t ≤ q.2))).map Prod.fst with
        | [] => a
        | x :: xs => a + xs.foldl max x) = a + maxPrecAtRecall curve t := by
      rcases hm : (curve.filter (fun q => decide (t ≤ q.2))).map Prod.fst with _ | ⟨x, xs⟩
      · simp [maxPrecAtRecall, hm]
      · have hmem : ∀ y ∈ x :: xs, 0 ≤ y := by
          intro y hy
          have : y ∈ (curve.filter (fun q => decide (t ≤ q.2))).map Prod.fst := by
            rw [hm]
            exact hy
          obtain ⟨q, hq, hqy⟩ := List.mem_map.mp this
          rw [← hqy]
          exact hc q ((List.filter_sublist _).subset hq)
        rw [maxPrecAtRecall, hm]
        simp only [List.foldr_cons]
        rw [foldl_max_eq_foldr (hmem x (by simp)) (fun y hy => hmem y (by simp [hy]))]
    rw [hstep]
    ring

lemma calculate_map_eq (ms : List Bool) (cs : List ℚ) :
    calculate_map ms cs
      = if ms.length = 0 ∨ cs.length = 0 then 0
        else interpolatedMap (precision_recall_curve ms cs) := by
  unfold calculate_map
  split
  · rfl
  · simp only
    rw [foldl_interp (precision_recall_curve ms cs)
      (fun q hq => prec_mem_curve_nonneg hq) recallThresholds 0]
    simp [interpolatedMap]

lemma evalSampleAcc_some {iouThr confThr : ℚ} {g g' : RunState} {s : Sample}
    (h : evalSampleAcc iouThr confThr g s = some g') :
    ∃ st, matchSample s.2 iouThr (survivors confThr s.1) = some st
      ∧ g' = ⟨g.tp + st.recs.count true, g.fp + st.recs.count false,
              g.fn + st.matched.count false,
              g.matchList ++ st.recs, g.confidences ++ st.confs⟩ := by
  unfold evalSampleAcc at h
  split at h
  · exact absurd h (by simp)
  · rename_i st hst
    cases h
    exact ⟨st, hst, rfl⟩

lemma evalLoop_matches_len (iouThr confThr : ℚ) :
    ∀ (samples : List Sample) (g0 g : RunState),
      evalLoop iouThr confThr g0 samples = some g →
      g.matchList.length
        = g0.matchList.length
          + (samples.map (fun s => (survivors confThr s.1).length)).sum := by
  intro samples
  induction samples with
  | nil =>
    intro g0 g h
    simp only [evalLoop, Option.some.injEq] at h
    subst h
    simp
  | cons s ss ih =>
    intro g0 g h
    simp only [evalLoop] at h
    split at h
    · exact absurd h (by simp)
    · rename_i g1 hacc
      obtain ⟨st, hst, hg1⟩ := evalSampleAcc_some hacc
      have hlen := (matchSample_inv hst).2.2.1
      have := ih g1 g h
      rw [this, hg1]
      simp only [List.map_cons, List.sum_cons, List.length_append]
      omega

lemma survivors_idem (confThr : ℚ) (ps : List Pred) :
    survivors confThr (survivors confThr ps) = survivors confThr ps := by
  simp [survivors, List.filter_filter]

lemma evalLoop_prefiltered (iouThr confThr : ℚ) :
    ∀ (samples : List Sample) (g0 : RunState),
      evalLoop iouThr confThr g0
          (samples.map (fun s => ((survivors confThr s.1, s.2) : Sample)))
        = evalLoop iouThr confThr g0 samples := by
  intro samples
  induction samples with
  | nil => intro g0; rfl
  | cons s ss ih =>
    intro g0
    simp only [List.map_cons, evalLoop]
    have hacc : evalSampleAcc iouThr confThr g0 ((survivors confThr s.1, s.2) : Sample)
        = evalSampleAcc iouThr confThr g0 s := by
      unfold evalSampleAcc
      rw [show survivors confThr ((survivors confThr s.1, s.2) : Sample).1
            = survivors confThr s.1 from survivors_idem confThr s.1]
    rw [hacc]
    split
    · rfl
    · exact ih _

lemma evaluate_model_some {samples : List Sample} {iouThr confThr : ℚ}
    {r : EvalResult} (h : evaluate_model samples iouThr confThr = some r) :
    ∃ g, evalLoop iouThr confThr ⟨0, 0, 0, [], []⟩ samples = some g
      ∧ r = ⟨(g.tp : ℚ) / ((g.tp : ℚ) + (g.fp : ℚ) + eps),
             (g.tp : ℚ) / ((g.tp : ℚ) + (g.fn : ℚ) + eps),
             2 * ((g.tp : ℚ) / ((g.tp : ℚ) + (g.fp : ℚ) + eps)
                  * ((g.tp : ℚ) / ((g.tp : ℚ) + (g.fn : ℚ) + eps)))
               / ((g.tp : ℚ) / ((g.tp : ℚ) + (g.fp : ℚ) + eps)
                  + (g.tp : ℚ) / ((g.tp : ℚ) + (g.fn : ℚ) + eps) + eps),
             calculate_map g.matchList g.confidences,
             g.tp, g.fp, g.fn, g.matchList, g.confidences⟩ := by
  unfold evaluate_model at h
  split at h
  · exact absurd h (by simp)
  · rename_i g hg
    simp only [Option.some.injEq] at h
    exact ⟨g, hg, h.symm⟩

lemma heps_pos : (0 : ℚ) < eps := by norm_num [eps]

lemma ratio_bounds (a b : ℕ) :
    0 ≤ (a : ℚ) / ((a : ℚ) + (b : ℚ) + eps)
    ∧ (a : ℚ) / ((a : ℚ) + (b : ℚ) + eps) ≤ 1 := by
  have ha : (0 : ℚ) ≤ (a : ℚ) := Nat.cast_nonneg a
  have hb : (0 : ℚ) ≤ (b : ℚ) := Nat.cast_nonneg b
  have hden : 0 < (a : ℚ) + (b : ℚ) + eps := by linarith [heps_pos]
  constructor
  · exact div_nonneg ha hden.le
  · rw [div_le_one hden]
    linarith [heps_pos]

lemma f1_bounds {p r : ℚ} (hp0 : 0 ≤ p) (hp1 : p ≤ 1) (hr0 : 0 ≤ r) (hr1 : r ≤ 1) :
    0 ≤ 2 * (p * r) / (p + r + eps) ∧ 2 * (p * r) / (p + r + eps) ≤ 1 := by
  have hden : 0 < p + r + eps := by linarith [heps_pos]
  constructor
  · exact div_nonneg (by positivity) hden.le
  · rw [div_le_one hden]
    nlinarith [heps_pos, mul_nonneg (sub_nonneg.mpr hp1) hr0,
      mul_nonneg (sub_nonneg.mpr hr1) hp0]

/-! ## Claim theorems -/

/-- **C7.** For well-formed (possibly zero-area) boxes, `calculate_iou`
equals `intersection / (area(a) + area(b) - intersection + 1e-6)`, its
divisor is strictly positive (so the Python division never raises), and
the result always lies in `[0, 1]`. -/
theorem c7_iou_total_and_bounded (a b : Box) (ha : validBox a) (hb : validBox b) :
    calculate_iou a b
        = interArea a b / (Box.area a + Box.area b - interArea a b + eps)
      ∧ 0 < Box.area a + Box.area b - interArea a b + eps
      ∧ 0 ≤ calculate_iou a b ∧ calculate_iou a b ≤ 1 := by
  have hden := iou_denom_pos ha hb
  refine ⟨rfl, hden, ?_, ?_⟩
  · exact div_nonneg (interArea_nonneg a b) (le_of_lt hden)
  · rw [calculate_iou, div_le_one hden]
    have h1 := interArea_le_area_left a b ha
    have h2 := interArea_le_area_right a b hb
    have : (0 : ℚ) < eps := by norm_num [eps]
    linarith

/-- Witness for C7 at concrete boxes. -/
theorem c7_iou_total_and_bounded_witness :
    validBox ⟨0, 0, 1, 1⟩ ∧ validBox ⟨0, 0, 2, 2⟩
      ∧ (calculate_iou ⟨0, 0, 1, 1⟩ ⟨0, 0, 2, 2⟩
            = interArea ⟨0, 0, 1, 1⟩ ⟨0, 0, 2, 2⟩
                / (Box.area ⟨0, 0, 1, 1⟩ + Box.area ⟨0, 0, 2, 2⟩
                    - interArea ⟨0, 0, 1, 1⟩ ⟨0, 0, 2, 2⟩ + eps)
          ∧ 0 < Box.area ⟨0, 0, 1, 1⟩ + Box.area ⟨0, 0, 2, 2⟩
                - interArea ⟨0, 0, 1, 1⟩ ⟨0, 0, 2, 2⟩ + eps
          ∧ 0 ≤ calculate_iou ⟨0, 0, 1, 1⟩ ⟨0, 0, 2, 2⟩
          ∧ calculate_iou ⟨0, 0, 1, 1⟩ ⟨0, 0, 2, 2⟩ ≤ 1) :=
  ⟨⟨by norm_num, by norm_num⟩, ⟨by norm_num, by norm_num⟩,
    c7_iou_total_and_bounded _ _ ⟨by norm_num, by norm_num⟩ ⟨by norm_num, by norm_num⟩⟩

/-- **C1.** When two surviving predictions both best-match the same
ground-truth box `k` (a genuine index, `0 ≤ k`) with IoU at or above the
threshold, the matcher emits exactly a true positive for the first in
detector-output order and a false positive for the second; moreover, in
every sample the number of claimed ground-truth boxes equals the number
of true-positive records, so no box is ever claimed by more than one
prediction. -/
theorem c1_first_prediction_claims (gts : List Box) (iouThr iou1 iou2 : ℚ)
    (k : ℤ) (p q : Pred)
    (h1 : bestMatch p.box gts = (iou1, k)) (h2 : bestMatch q.box gts = (iou2, k))
    (hk : 0 ≤ k) (ht1 : iouThr ≤ iou1) (ht2 : iouThr ≤ iou2) :
    (matchSample gts iouThr [p, q]).map SampleState.recs = some [true, false]
    ∧ ∀ (gts' : List Box) (thr : ℚ) (preds : List Pred) (st : SampleState),
        matchSample gts' thr preds = some st →
        st.matched.count true = st.recs.count true := by
  constructor
  · have hklt : k < (gts.length : ℤ) := by
      have hb := bestMatch_snd_lt p.box gts
      rw [h1] at hb
      exact hb
    have hkn : k.toNat < gts.length := by omega
    have hs1 := @matchStep_tp gts iouThr iou1 k p
      ⟨List.replicate gts.length false, [], []⟩
      h1 ht1 hk hklt (by simp)
      (by simp [List.getElem?_replicate_of_lt hkn])
    have hs2 := @matchStep_fp_claimed gts iouThr iou2 k q
      ⟨(List.replicate gts.length false).set k.toNat true, [true], [p.conf]⟩
      h2 ht2 hk hklt (by simp)
      (by
        have hl2 : k.toNat < (List.replicate gts.length false).length := by
          simpa using hkn
        simp [List.getElem?_set_self hl2])
    simp only [matchSample, matchLoop, hs1, List.nil_append, hs2]
    simp [matchLoop]
  · intro gts' thr preds st h
    exact (matchSample_inv h).2.1

/-- Witness for C1: two identical predictions on a single ground-truth box. -/
theorem c1_first_prediction_claims_witness :
    bestMatch ⟨0, 0, 10, 10⟩ [⟨0, 0, 10, 10⟩] = (100000000 / 100000001, 0)
    ∧ (0 : ℤ) ≤ 0 ∧ (1 / 2 : ℚ) ≤ 100000000 / 100000001
    ∧ ((matchSample [⟨0, 0, 10, 10⟩] (1 / 2)
          [⟨⟨0, 0, 10, 10⟩, 9 / 10⟩, ⟨⟨0, 0, 10, 10⟩, 4 / 5⟩]).map SampleState.recs
            = some [true, false]
        ∧ ∀ (gts' : List Box) (thr : ℚ) (preds : List Pred) (st : SampleState),
            matchSample gts' thr preds = some st →
            st.matched.count true = st.recs.count true) :=
  ⟨by norm_num [bestMatch, bestMatchAux, calculate_iou, interArea, Box.area, eps],
    by norm_num, by norm_num,
    c1_first_prediction_claims [⟨0, 0, 10, 10⟩] (1 / 2) (100000000 / 100000001)
      (100000000 / 100000001) 0 ⟨⟨0, 0, 10, 10⟩, 9 / 10⟩ ⟨⟨0, 0, 10, 10⟩, 4 / 5⟩
      (by norm_num [bestMatch, bestMatchAux, calculate_iou, interArea, Box.area, eps])
      (by norm_num [bestMatch, bestMatchAux, calculate_iou, interArea, Box.area, eps])
      (by norm_num) (by norm_num) (by norm_num)⟩

/-- **C5.** For every successfully matched sample, the false-negative
count the code adds (`np.sum(~gt_matched)`, i.e. the unclaimed flags)
equals the number of ground-truth boxes minus the number of true-positive
records of that sample: every claimed box corresponds to exactly one
true-positive record. -/
theorem c5_fn_counts_unclaimed (gts : List Box) (iouThr : ℚ)
    (preds : List Pred) (st : SampleState)
    (h : matchSample gts iouThr preds = some st) :
    st.matched.count false + st.recs.count true = gts.length
    ∧ st.matched.count false = gts.length - st.recs.count true := by
  obtain ⟨hl, hct, -, -⟩ := matchSample_inv h
  have hsum := count_false_add_count_true st.matched
  constructor <;> omega

/-- Witness for C5 at a concrete sample. -/
theorem c5_fn_counts_unclaimed_witness :
    matchSample [⟨0, 0, 10, 10⟩] (1 / 2)
        [⟨⟨0, 0, 10, 10⟩, 9 / 10⟩, ⟨⟨0, 0, 10, 10⟩, 4 / 5⟩]
      = some ⟨[true], [true, false], [9 / 10, 4 / 5]⟩
    ∧ ((SampleState.mk [true] [true, false] [9 / 10, 4 / 5]).matched.count false
          + (SampleState.mk [true] [true, false] [9 / 10, 4 / 5]).recs.count true
        = [(⟨0, 0, 10, 10⟩ : Box)].length
      ∧ (SampleState.mk [true] [true, false] [9 / 10, 4 / 5]).matched.count false
        = [(⟨0, 0, 10, 10⟩ : Box)].length
            - (SampleState.mk [true] [true, false] [9 / 10, 4 / 5]).recs.count true) :=
  ⟨by norm_num [matchSample, matchLoop, matchStep, bestMatch, bestMatchAux, pyIdx,
      calculate_iou, interArea, Box.area, eps],
    c5_fn_counts_unclaimed [⟨0, 0, 10, 10⟩] (1 / 2)
      [⟨⟨0, 0, 10, 10⟩, 9 / 10⟩, ⟨⟨0, 0, 10, 10⟩, 4 / 5⟩]
      ⟨[true], [true, false], [9 / 10, 4 / 5]⟩
      (by norm_num [matchSample, matchLoop, matchStep, bestMatch, bestMatchAux, pyIdx,
        calculate_iou, interArea, Box.area, eps])⟩

/-- Counterexample to **C6** as stated: with an empty ground-truth set, a
surviving prediction is not always recorded as a false positive — when
the IoU threshold is not positive (here `0`), `gt_matched[-1]` on the
empty flag array raises an `IndexError` (modelled as `none`) instead. -/
theorem c6_counterexample :
    matchSample [] 0 [⟨⟨0, 0, 1, 1⟩, 1⟩] = none
    ∧ (matchSample [] 0 [⟨⟨0, 0, 1, 1⟩, 1⟩]).map SampleState.recs
        ≠ some [false] := by
  have h : matchSample [] 0 [⟨⟨0, 0, 1, 1⟩, 1⟩] = none := by
    norm_num [matchSample, matchLoop, matchStep, bestMatch, bestMatchAux, pyIdx]
  exact ⟨h, by simp [h]⟩

/-- **C6 (amended).** Provided the IoU threshold is positive (as in both
callers, which use `0.5` and `0.4`): a sample with an empty ground-truth
set records every surviving prediction as a false positive and
contributes zero false negatives; and a sample with no surviving
predictions emits no records and contributes one false negative per
ground-truth box. -/
theorem c6_empty_gt_and_empty_preds (preds : List Pred) (gts : List Box)
    (iouThr : ℚ) (h : 0 < iouThr) :
    matchSample [] iouThr preds
        = some ⟨[], List.replicate preds.length false, preds.map Pred.conf⟩
    ∧ (List.replicate preds.length false).count true = 0
    ∧ matchSample gts iouThr []
        = some ⟨List.replicate gts.length false, [], []⟩
    ∧ (List.replicate gts.length false).count false = gts.length := by
  refine ⟨?_, by simp [List.count_replicate], rfl, by simp [List.count_replicate]⟩
  have h0 : matchSample [] iouThr preds = matchLoop [] iouThr ⟨[], [], []⟩ preds := rfl
  rw [h0, matchLoop_empty_gts iouThr h preds [] []]
  simp

/-- Witness for C6 (amended) at a concrete threshold, prediction and
ground-truth list. -/
theorem c6_empty_gt_and_empty_preds_witness :
    (0 : ℚ) < 1 / 2
    ∧ (matchSample [] (1 / 2) [⟨⟨0, 0, 1, 1⟩, 1⟩]
          = some ⟨[], List.replicate [(⟨⟨0, 0, 1, 1⟩, 1⟩ : Pred)].length false,
                  [(⟨⟨0, 0, 1, 1⟩, 1⟩ : Pred)].map Pred.conf⟩
        ∧ (List.replicate [(⟨⟨0, 0, 1, 1⟩, 1⟩ : Pred)].length false).count true = 0
        ∧ matchSample [⟨0, 0, 9, 9⟩] (1 / 2) []
            = some ⟨List.replicate [(⟨0, 0, 9, 9⟩ : Box)].length false, [], []⟩
        ∧ (List.replicate [(⟨0, 0, 9, 9⟩ : Box)].length false).count false
            = [(⟨0, 0, 9, 9⟩ : Box)].length) :=
  ⟨by norm_num,
    c6_empty_gt_and_empty_preds [⟨⟨0, 0, 1, 1⟩, 1⟩] [⟨0, 0, 9, 9⟩] (1 / 2)
      (by norm_num)⟩

/-- **C9.** When a surviving prediction has IoU exactly `0` with every
ground-truth box, the best-match pair keeps its initializer `(0, -1)`;
if additionally the IoU threshold is non-positive, then for a non-empty
ground-truth set the prediction is recorded as a true positive claiming
the LAST ground-truth box (the `-1` flag is the last array slot), and for
an empty ground-truth set the flag lookup is an out-of-bounds access
(`none`) rather than a false-positive record. -/
theorem c9_index_minus_one (p : Pred) (gts : List Box) (iouThr : ℚ)
    (hz : ∀ g ∈ gts, calculate_iou p.box g = 0) (ht : iouThr ≤ 0) :
    bestMatch p.box gts = (0, -1)
    ∧ (gts ≠ [] → matchSample gts iouThr [p]
        = some ⟨List.replicate (gts.length - 1) false ++ [true], [true], [p.conf]⟩)
    ∧ (gts = [] → matchSample gts iouThr [p] = none) := by
  have hbm := bestMatch_all_zero p.box gts hz
  refine ⟨hbm, ?_, ?_⟩
  · intro hne
    have hn : 1 ≤ gts.length := by
      cases gts with
      | nil => exact absurd rfl hne
      | cons g gs => simp
    have hpy : pyIdx gts.length (-1) = some (gts.length - 1) := by
      unfold pyIdx
      rw [if_neg (by norm_num), if_pos (by omega)]
      congr 1
      omega
    have hget : (List.replicate gts.length false)[gts.length - 1]? = some false :=
      List.getElem?_replicate_of_lt (by omega)
    have hstep : matchStep gts iouThr ⟨List.replicate gts.length false, [], []⟩ p
        = some ⟨(List.replicate gts.length false).set (gts.length - 1) true,
                [true], [p.conf]⟩ := by
      simp only [matchStep]
      rw [hbm]
      simp [ht, hpy, hget]
    simp only [matchSample, matchLoop, hstep]
    rw [replicate_set_last gts.length hn]
  · intro hemp
    subst hemp
    have hstep : matchStep [] iouThr ⟨[], [], []⟩ p = none := by
      simp only [matchStep]
      rw [show bestMatch p.box [] = (0, -1) from rfl]
      simp [ht, pyIdx]
    simp only [matchSample, List.length_nil, List.replicate_zero, matchLoop, hstep]

/-- Witness for C9: a prediction disjoint from both ground-truth boxes,
IoU threshold `0`. -/
theorem c9_index_minus_one_witness :
    (∀ g ∈ [(⟨0, 0, 1, 1⟩ : Box), ⟨2, 2, 3, 3⟩],
        calculate_iou ⟨5, 5, 6, 6⟩ g = 0)
    ∧ (0 : ℚ) ≤ 0
    ∧ (bestMatch ⟨5, 5, 6, 6⟩ [⟨0, 0, 1, 1⟩, ⟨2, 2, 3, 3⟩] = (0, -1)
        ∧ ([(⟨0, 0, 1, 1⟩ : Box), ⟨2, 2, 3, 3⟩] ≠ []
            → matchSample [⟨0, 0, 1, 1⟩, ⟨2, 2, 3, 3⟩] 0 [⟨⟨5, 5, 6, 6⟩, 1 / 2⟩]
              = some ⟨List.replicate
                        ([(⟨0, 0, 1, 1⟩ : Box), ⟨2, 2, 3, 3⟩].length - 1) false
                      ++ [true], [true], [(⟨⟨5, 5, 6, 6⟩, 1 / 2⟩ : Pred).conf]⟩)
        ∧ ([(⟨0, 0, 1, 1⟩ : Box), ⟨2, 2, 3, 3⟩] = []
            → matchSample [⟨0, 0, 1, 1⟩, ⟨2, 2, 3, 3⟩] 0 [⟨⟨5, 5, 6, 6⟩, 1 / 2⟩]
              = none)) :=
  ⟨by norm_num [calculate_iou, interArea, Box.area, eps], by norm_num,
    c9_index_minus_one ⟨⟨5, 5, 6, 6⟩, 1 / 2⟩ [⟨0, 0, 1, 1⟩, ⟨2, 2, 3, 3⟩] 0
      (by norm_num [calculate_iou, interArea, Box.area, eps]) (by norm_num)⟩

/-- **C2.** For every MatchRecord sequence, `calculate_map` returns the
mean of the 11 interpolated maxima — for each recall threshold
`t ∈ {0.0, 0.1, …, 1.0}` the maximum precision among curve points with
recall at least `t`, contributing `0` when no point qualifies — and
returns `0.0` on an empty sequence instead of raising. -/
theorem c2_map_is_11_point_interpolation (rs : List (Bool × ℚ)) :
    calculate_map (rs.map Prod.fst) (rs.map Prod.snd)
      = if rs = [] then 0
        else interpolatedMap
          (precision_recall_curve (rs.map Prod.fst) (rs.map Prod.snd)) := by
  rw [calculate_map_eq]
  rcases eq_or_ne rs [] with h | h
  · subst h
    simp
  · rw [if_neg (by simp [h]), if_neg h]

/-- **C10.** For every non-empty MatchRecord sequence, the curve built by
the scikit-learn routine ends with the point
`(precision, recall) = (1, 0)`, so the recall-threshold-`0.0` bucket
contributes a maximum precision of `1` and `calculate_map` returns at
least `1/11` — even when every record is a false positive. -/
theorem c10_map_at_least_one_eleventh (rs : List (Bool × ℚ)) (h : rs ≠ []) :
    (precision_recall_curve (rs.map Prod.fst) (rs.map Prod.snd)).getLast?
        = some (1, 0)
    ∧ 1 / 11 ≤ calculate_map (rs.map Prod.fst) (rs.map Prod.snd) := by
  constructor
  · simp only [precision_recall_curve]
    exact List.getLast?_concat _
  · rw [calculate_map_eq, if_neg (by simp [h])]
    set curve := precision_recall_curve (rs.map Prod.fst) (rs.map Prod.snd) with hcurve
    have hmem : ((1 : ℚ), (0 : ℚ)) ∈ curve := by
      rw [hcurve]
      simp only [precision_recall_curve]
      exact List.mem_append_right _ (by simp)
    have h0 : (1 : ℚ) ≤ maxPrecAtRecall curve 0 := by
      have h1 : ((1 : ℚ), (0 : ℚ)) ∈ curve.filter (fun q => decide ((0 : ℚ) ≤ q.2)) := by
        rw [List.mem_filter]
        exact ⟨hmem, by norm_num⟩
      have h2 : (1 : ℚ) ∈ (curve.filter (fun q => decide ((0 : ℚ) ≤ q.2))).map Prod.fst :=
        List.mem_map.mpr ⟨(1, 0), h1, rfl⟩
      exact le_foldr_max h2
    have hrt : recallThresholds
        = 0 :: [1 / 10, 1 / 5, 3 / 10, 2 / 5, 1 / 2, 3 / 5, 7 / 10, 4 / 5, 9 / 10, 1] := by
      have hr : List.range 11 = [0, 1, 2, 3, 4, 5, 6, 7, 8, 9, 10] := rfl
      rw [recallThresholds, hr]
      norm_num
    rw [interpolatedMap, hrt]
    simp only [List.map_cons, List.map_nil, List.sum_cons, List.sum_nil]
    have hn : ∀ t : ℚ, 0 ≤ maxPrecAtRecall curve t := fun t => foldr_max_nonneg _
    linarith [h0, hn (1 / 10), hn (1 / 5), hn (3 / 10), hn (2 / 5), hn (1 / 2),
      hn (3 / 5), hn (7 / 10), hn (4 / 5), hn (9 / 10), hn 1]

/-- Witness for C10 at a single all-false-positive record. -/
theorem c10_map_at_least_one_eleventh_witness :
    ([((false : Bool), (1 : ℚ) / 2)] ≠ [])
    ∧ ((precision_recall_curve ([((false : Bool), (1 : ℚ) / 2)].map Prod.fst)
          ([((false : Bool), (1 : ℚ) / 2)].map Prod.snd)).getLast? = some (1, 0)
        ∧ 1 / 11 ≤ calculate_map ([((false : Bool), (1 : ℚ) / 2)].map Prod.fst)
            ([((false : Bool), (1 : ℚ) / 2)].map Prod.snd)) :=
  ⟨by simp, c10_map_at_least_one_eleventh [((false : Bool), (1 : ℚ) / 2)] (by simp)⟩

/-- **C3.** For every run that completes, the returned metrics satisfy
`precision = tp / (tp + fp + 1e-6)`, `recall = tp / (tp + fn + 1e-6)`,
`f1 = 2·p·r / (p + r + 1e-6)`, and all three are (finite rationals) in
`[0, 1]` for every final count — in particular when
`tp = fp = fn = 0` nothing raises and the metrics degrade to values in
`[0, 1]`. -/
theorem c3_metric_formulas_and_bounds (samples : List Sample)
    (iouThr confThr : ℚ) (r : EvalResult)
    (h : evaluate_model samples iouThr confThr = some r) :
    r.precision = (r.tp : ℚ) / ((r.tp : ℚ) + (r.fp : ℚ) + eps)
    ∧ r.recallScore = (r.tp : ℚ) / ((r.tp : ℚ) + (r.fn : ℚ) + eps)
    ∧ r.f1 = 2 * (r.precision * r.recallScore)
        / (r.precision + r.recallScore + eps)
    ∧ 0 ≤ r.precision ∧ r.precision ≤ 1
    ∧ 0 ≤ r.recallScore ∧ r.recallScore ≤ 1
    ∧ 0 ≤ r.f1 ∧ r.f1 ≤ 1 := by
  obtain ⟨g, -, hr⟩ := evaluate_model_some h
  subst hr
  obtain ⟨hp0, hp1⟩ := ratio_bounds g.tp g.fp
  obtain ⟨hr0, hr1⟩ := ratio_bounds g.tp g.fn
  obtain ⟨hf0, hf1⟩ := f1_bounds hp0 hp1 hr0 hr1
  exact ⟨rfl, rfl, rfl, hp0, hp1, hr0, hr1, hf0, hf1⟩

/-- Witness for C3: the empty dataset, where `tp = fp = fn = 0`. -/
theorem c3_metric_formulas_and_bounds_witness :
    evaluate_model [] (1 / 2) (3 / 10) = some ⟨0, 0, 0, 0, 0, 0, 0, [], []⟩
    ∧ ((EvalResult.mk 0 0 0 0 0 0 0 [] []).precision
          = ((EvalResult.mk 0 0 0 0 0 0 0 [] []).tp : ℚ)
            / (((EvalResult.mk 0 0 0 0 0 0 0 [] []).tp : ℚ)
                + ((EvalResult.mk 0 0 0 0 0 0 0 [] []).fp : ℚ) + eps)
        ∧ (EvalResult.mk 0 0 0 0 0 0 0 [] []).recallScore
          = ((EvalResult.mk 0 0 0 0 0 0 0 [] []).tp : ℚ)
            / (((EvalResult.mk 0 0 0 0 0 0 0 [] []).tp : ℚ)
                + ((EvalResult.mk 0 0 0 0 0 0 0 [] []).fn : ℚ) + eps)
        ∧ (EvalResult.mk 0 0 0 0 0 0 0 [] []).f1
          = 2 * ((EvalResult.mk 0 0 0 0 0 0 0 [] []).precision
                  * (EvalResult.mk 0 0 0 0 0 0 0 [] []).recallScore)
            / ((EvalResult.mk 0 0 0 0 0 0 0 [] []).precision
                + (EvalResult.mk 0 0 0 0 0 0 0 [] []).recallScore + eps)
        ∧ 0 ≤ (EvalResult.mk 0 0 0 0 0 0 0 [] []).precision
        ∧ (EvalResult.mk 0 0 0 0 0 0 0 [] []).precision ≤ 1
        ∧ 0 ≤ (EvalResult.mk 0 0 0 0 0 0 0 [] []).recallScore
        ∧ (EvalResult.mk 0 0 0 0 0 0 0 [] []).recallScore ≤ 1
        ∧ 0 ≤ (EvalResult.mk 0 0 0 0 0 0 0 [] []).f1
        ∧ (EvalResult.mk 0 0 0 0 0 0 0 [] []).f1 ≤ 1) :=
  ⟨by norm_num [evaluate_model, evalLoop, calculate_map, eps],
    c3_metric_formulas_and_bounds [] (1 / 2) (3 / 10) ⟨0, 0, 0, 0, 0, 0, 0, [], []⟩
      (by norm_num [evaluate_model, evalLoop, calculate_map, eps])⟩

/-- **C4.** Predictions below the confidence threshold are excluded
entirely: the final MatchRecord sequence length equals the total number
of predictions with confidence at or above the threshold across all
samples, and discarding the below-threshold predictions up front yields
the exact same result bundle (so they contribute to no count, neither
false positives nor false negatives). -/
theorem c4_low_confidence_excluded (samples : List Sample)
    (iouThr confThr : ℚ) (r : EvalResult)
    (h : evaluate_model samples iouThr confThr = some r) :
    r.matchList.length
        = (samples.map (fun s => (survivors confThr s.1).length)).sum
    ∧ evaluate_model
        (samples.map (fun s => ((survivors confThr s.1, s.2) : Sample)))
        iouThr confThr = some r := by
  constructor
  · obtain ⟨g, hg, hr⟩ := evaluate_model_some h
    have := evalLoop_matches_len iouThr confThr samples _ g hg
    rw [hr]
    simpa using this
  · unfold evaluate_model at h ⊢
    rw [evalLoop_prefiltered]
    exact h

/-- Witness for C4: one sample whose only prediction falls below the
confidence threshold, so the record list is empty and the prediction
counts toward neither false positives nor false negatives. -/
theorem c4_low_confidence_excluded_witness :
    evaluate_model [([⟨⟨0, 0, 10, 10⟩, 1 / 10⟩], [⟨0, 0, 10, 10⟩])] (1 / 2) (3 / 10)
        = some ⟨0, 0, 0, 0, 0, 0, 1, [], []⟩
    ∧ ((EvalResult.mk 0 0 0 0 0 0 1 [] []).matchList.length
          = ([(([⟨⟨0, 0, 10, 10⟩, 1 / 10⟩], [⟨0, 0, 10, 10⟩]) : Sample)].map
              (fun s => (survivors (3 / 10) s.1).length)).sum
        ∧ evaluate_model
            (([(([⟨⟨0, 0, 10, 10⟩, 1 / 10⟩], [⟨0, 0, 10, 10⟩]) : Sample)]).map
              (fun s => ((survivors (3 / 10) s.1, s.2) : Sample)))
            (1 / 2) (3 / 10) = some ⟨0, 0, 0, 0, 0, 0, 1, [], []⟩) :=
  ⟨by norm_num [evaluate_model, evalLoop, evalSampleAcc, survivors, matchSample,
      matchLoop, calculate_map, eps],
    c4_low_confidence_excluded [([⟨⟨0, 0, 10, 10⟩, 1 / 10⟩], [⟨0, 0, 10, 10⟩])]
      (1 / 2) (3 / 10) ⟨0, 0, 0, 0, 0, 0, 1, [], []⟩
      (by norm_num [evaluate_model, evalLoop, evalSampleAcc, survivors, matchSample,
        matchLoop, calculate_map, eps])⟩

/-- Counterexample to **C8** as stated: this line has only 14
whitespace-separated fields (one separator is a double space), yet
`line.strip().split(' ')` yields 15 parts — including an empty part at
index 4 — so the line is *not* skipped; `float('')` then raises and the
whole file's ground truth is discarded (`none`), even though parsing the
remaining well-formed line alone succeeds. -/
theorem c8_counterexample :
    wsFieldCount ("0 0 0 0  0 0 0 0 0 0 0 0 0 0".data) < 15
    ∧ parse_kitti_label ["0 0 0 0  0 0 0 0 0 0 0 0 0 0".data,
        "Car 0 0 0 1.0 2.0 3.0 4.0 0 0 0 0 0 0 0".data] = none
    ∧ parse_kitti_label ["Car 0 0 0 1.0 2.0 3.0 4.0 0 0 0 0 0 0 0".data] ≠ none := by
  refine ⟨by decide, by decide, by decide⟩

/-- **C8 (amended).** Each line with fewer than 15 parts under
`strip().split(' ')` — single-space splitting, where consecutive
separators contribute empty parts that count toward the 15 — is skipped
individually, and parsing continues with the remaining lines of the same
file.  (A line reaching 15 such parts is parsed instead, and a
non-numeric coordinate field there aborts the whole file's parse.) -/
theorem c8_short_lines_skipped (line : List Char) (rest : List (List Char))
    (h : (splitOnSpace (pyStrip line)).length < 15) :
    parse_kitti_label (line :: rest) = parse_kitti_label rest := by
  simp only [parse_kitti_label]
  rw [if_pos h]

/-- Witness for C8 (amended): a two-field line before a well-formed line. -/
theorem c8_short_lines_skipped_witness :
    (splitOnSpace (pyStrip ("short line".data))).length < 15
    ∧ parse_kitti_label ["short line".data,
          "Car 0 0 0 1.0 2.0 3.0 4.0 0 0 0 0 0 0 0".data]
        = parse_kitti_label ["Car 0 0 0 1.0 2.0 3.0 4.0 0 0 0 0 0 0 0".data] :=
  ⟨by decide,
    c8_short_lines_skipped ("short line".data)
      ["Car 0 0 0 1.0 2.0 3.0 4.0 0 0 0 0 0 0 0".data] (by decide)⟩

end LAD
